import Mathlib

/-!
Shallow embedding of the echo360 lecture downloader core
(src/echo360/videos.py and src/echo360/course.py).

Python strings are modelled as lists of characters (`Str`); the Python
built-in comparison is code-point lexicographic, modelled by `lexLt` and
`lexLe`.  The Python `sorted` / `list.sort(key=...)` is modelled
by the insertion sort `sortByKey` (any correct comparison sort models
the stable Timsort used by CPython; only the ordering of the result
matters for the properties proved here).
-/

deriving instance DecidableEq for Except

/-- Character-list model of a Python `str`. -/
abbrev Str := List Char

/-- Coerce a Lean string literal into the model. -/
def str (s : String) : Str := s.data

/-- Python `a < b` on strings: code-point lexicographic strict order. -/
def lexLt : Str → Str → Bool
  | [], [] => false
  | [], _ :: _ => true
  | _ :: _, [] => false
  | a :: as, b :: bs => if a < b then true else if b < a then false else lexLt as bs

/-- Python `a <= b` on strings (the order used by `sorted`). -/
def lexLe (a b : Str) : Bool := !(lexLt b a)

theorem lexLt_irrefl (a : Str) : lexLt a a = false := by
  induction a with
  | nil => rfl
  | cons c cs ih => simp [lexLt, ih]

theorem lexLe_refl (a : Str) : lexLe a a = true := by
  simp [lexLe, lexLt_irrefl]

theorem lexLt_trichotomy (a b : Str) : lexLt a b = true ∨ a = b ∨ lexLt b a = true := by
  induction a generalizing b with
  | nil => cases b <;> simp [lexLt]
  | cons x xs ih =>
    cases b with
    | nil => simp [lexLt]
    | cons y ys =>
      by_cases hxy : x < y
      · left; simp [lexLt, hxy]
      · by_cases hyx : y < x
        · right; right; simp [lexLt, hyx]
        · have hxyeq : x = y := le_antisymm (not_lt.mp hyx) (not_lt.mp hxy)
          subst hxyeq
          rcases ih ys with h | h | h
          · left; simp [lexLt, h]
          · right; left; simp [h]
          · right; right; simp [lexLt, h]

theorem lexLt_trans {a b c : Str} (h1 : lexLt a b = true) (h2 : lexLt b c = true) :
    lexLt a c = true := by
  induction a generalizing b c with
  | nil =>
    cases c with
    | nil => cases b <;> simp_all [lexLt]
    | cons _ _ => simp [lexLt]
  | cons x xs ih =>
    cases b with
    | nil => simp [lexLt] at h1
    | cons y ys =>
      cases c with
      | nil => simp [lexLt] at h2
      | cons z zs =>
        simp only [lexLt] at h1 h2 ⊢
        by_cases hxy : x < y
        · by_cases hyz : y < z
          · simp [lt_trans hxy hyz]
          · simp only [if_neg hyz] at h2
            by_cases hzy : z < y
            · simp [hzy] at h2
            · have : y = z := le_antisymm (not_lt.mp hzy) (not_lt.mp hyz)
              simp [this ▸ hxy]
        · simp only [if_neg hxy] at h1
          by_cases hyx : y < x
          · simp [hyx] at h1
          · have hxyeq : x = y := le_antisymm (not_lt.mp hyx) (not_lt.mp hxy)
            by_cases hyz : y < z
            · simp [hxyeq ▸ hyz]
            · simp only [if_neg hyz] at h2
              by_cases hzy : z < y
              · simp [hzy] at h2
              · have hyzeq : y = z := le_antisymm (not_lt.mp hzy) (not_lt.mp hyz)
                simp only [if_neg hyx] at h1
                simp only [if_neg hzy] at h2
                subst hxyeq; subst hyzeq
                simp only [if_neg (lt_irrefl x)]
                exact ih h1 h2

theorem lexLe_trans {a b c : Str} (h1 : lexLe a b = true) (h2 : lexLe b c = true) :
    lexLe a c = true := by
  simp only [lexLe, Bool.not_eq_true'] at h1 h2 ⊢
  by_contra hne
  have hca : lexLt c a = true := by
    cases h : lexLt c a
    · exact absurd h hne
    · rfl
  rcases lexLt_trichotomy a b with hab | hab | hab
  · exact absurd (lexLt_trans hca hab) (by simp [h2])
  · subst hab; exact absurd hca (by simp [h2])
  · exact absurd hab (by simp [h1])

theorem lexLt_asymm {a b : Str} (h : lexLt a b = true) : lexLt b a = false := by
  cases hba : lexLt b a
  · rfl
  · exact absurd (lexLt_trans h hba) (by simp [lexLt_irrefl])

theorem lexLe_total (a b : Str) : lexLe a b = true ∨ lexLe b a = true := by
  simp only [lexLe, Bool.not_eq_true']
  rcases lexLt_trichotomy a b with h | h | h
  · left; exact lexLt_asymm h
  · subst h; left; exact lexLt_irrefl a
  · right; exact lexLt_asymm h

/-- Insert one element into a list that is already sorted by `lexLe` on `key`. -/
def insertByKey (key : α → Str) (x : α) : List α → List α
  | [] => [x]
  | y :: ys => if lexLe (key x) (key y) then x :: y :: ys else y :: insertByKey key x ys

/-- Model of Python `sorted(l, key=key)` / `l.sort(key=key)` (insertion sort). -/
def sortByKey (key : α → Str) (l : List α) : List α := l.foldr (insertByKey key) []

theorem mem_insertByKey (key : α → Str) (x : α) (l : List α) (z : α) :
    z ∈ insertByKey key x l ↔ z = x ∨ z ∈ l := by
  induction l with
  | nil => simp [insertByKey]
  | cons y ys ih =>
    simp only [insertByKey]
    by_cases h : lexLe (key x) (key y) = true
    · simp [h]
    · simp only [if_neg h, List.mem_cons, ih]
      tauto

theorem pairwise_insertByKey (key : α → Str) (x : α) (l : List α)
    (hl : l.Pairwise (fun a b => lexLe (key a) (key b) = true)) :
    (insertByKey key x l).Pairwise (fun a b => lexLe (key a) (key b) = true) := by
  induction l with
  | nil => simp [insertByKey]
  | cons y ys ih =>
    rcases List.pairwise_cons.mp hl with ⟨hy, hys⟩
    simp only [insertByKey]
    by_cases h : lexLe (key x) (key y) = true
    · simp only [if_pos h]
      refine List.pairwise_cons.mpr ⟨?_, hl⟩
      intro z hz
      rcases List.mem_cons.mp hz with hzy | hzys
      · subst hzy; exact h
      · exact lexLe_trans h (hy z hzys)
    · simp only [if_neg h]
      refine List.pairwise_cons.mpr ⟨?_, ih hys⟩
      intro z hz
      rcases (mem_insertByKey key x ys z).mp hz with hzx | hzys
      · subst hzx
        rcases lexLe_total (key z) (key y) with h' | h'
        · exact absurd h' h
        · exact h'
      · exact hy z hzys

theorem pairwise_sortByKey (key : α → Str) (l : List α) :
    (sortByKey key l).Pairwise (fun a b => lexLe (key a) (key b) = true) := by
  induction l with
  | nil => simp [sortByKey]
  | cons x xs ih => exact pairwise_insertByKey key x _ ih

theorem mem_sortByKey (key : α → Str) (l : List α) (z : α) :
    z ∈ sortByKey key l ↔ z ∈ l := by
  induction l with
  | nil => simp [sortByKey]
  | cons x xs ih =>
    simp only [sortByKey, List.foldr] at ih ⊢
    simp [mem_insertByKey, ih]

/-- Is `p` a (character) prefix of `s`? -/
def isPrefixCh : Str → Str → Bool
  | [], _ => true
  | _ :: _, [] => false
  | a :: as, b :: bs => a == b && isPrefixCh as bs

/-- Python `s.endswith(suffix)`. -/
def strEndsWith (s suffix : Str) : Bool := isPrefixCh suffix.reverse s.reverse

/-- A parsed URL, mirroring the fields of Python `urlparse` that
`from_json_m3u8` reads: scheme, netloc and path. -/
structure Url where
  scheme : Str
  netloc : Str
  path : Str
deriving DecidableEq

/-- The slices of the lecture JSON metadata that the resolution strategies in
`EchoCloudVideo._loop_find_m3u8_url` (videos.py) read.  `none` on `manifests`
or `primaryFiles` models a missing JSON path (a `KeyError`/`IndexError` when
the Python code indexes into `video_json`). -/
structure LessonMeta where
  hasVideo : Bool
  hasAvailableVideo : Bool
  /-- `lesson.video.media.media.versions[0].manifests`, with the `uri` of each entry parsed. -/
  manifests : Option (List Url)
  /-- `lesson.video.media.media.current.primaryFiles`, with the `s3Url` of each entry. -/
  primaryFiles : Option (List Str)

/-- What the regex page scans (`brute_force_get_url`) yield for each suffix:
`some found` is the list of distinct URLs `set(re.findall(...))` produced,
`none` models the retry loop exhausting its bounds and raising. -/
structure PageScan where
  mp4 : Option (List Str)
  m3u8 : Option (List Str)

/-- videos.py `brute_force_get_mp4_url` (lines 677-689): takes the set of
direct `.mp4` URLs found in the page source, raises when none were found,
otherwise returns `sorted(urls)[:2]` — ascending code-point sort, first two. -/
def brute_force_get_mp4_url (found : List Str) : Except Unit (List Str) :=
  let urls := found.dedup
  if urls.isEmpty then .error ()
  else .ok ((sortByKey id urls).take 2)

/-- videos.py `from_json_mp4` (lines 723-731): reads the declared progressive
file list and returns `next(reversed(urls))`, i.e. the last entry; raises when
the JSON path is missing or the list is empty. -/
def from_json_mp4 (lesson : LessonMeta) : Except Unit Str :=
  match lesson.primaryFiles with
  | none => .error ()
  | some [] => .error ()
  | some (u :: us) => .ok ((u :: us).getLast (by simp))

/-- videos.py `from_json_m3u8` (lines 691-721): returns Python `False`
(modelled `.ok none`) when the lesson has no available video, raises
(`.error`) when the manifests JSON path is missing, and otherwise rewrites
the host of each manifest URI to `content.<hostname netloc>`, preserving scheme
and path. -/
def from_json_m3u8 (hostnameNetloc : Str) (lesson : LessonMeta) :
    Except Unit (Option (List Str)) :=
  if !lesson.hasVideo || !lesson.hasAvailableVideo then .ok none
  else
    match lesson.manifests with
    | none => .error ()
    | some ms =>
        .ok (some (ms.map (fun u =>
          u.scheme ++ str "://content." ++ hostnameNetloc ++ u.path)))

/-- Outcome of `EchoCloudVideo._loop_find_m3u8_url`: a bare URL string
(`from_json_mp4`), a list of URLs, Python `False` (no audio+video manifest
found), or an exception propagating to the caller. -/
inductive ResolveResult
  | single (u : Str)
  | urls (us : List Str)
  | noAv
  | raised
deriving DecidableEq

/-- videos.py `EchoCloudVideo._loop_find_m3u8_url` (lines 733-779): the
strategy cascade.  `from_json_mp4` is tried first and returns directly on
success.  The result of `from_json_m3u8` is assigned to a local but — exactly
as in the source, where no `return` follows the assignment — is overwritten
by the later page-scan branches before it is ever read.  Then
`brute_force_get_mp4_url` returns directly on success, and finally the m3u8
page scan result is filtered to `*av.m3u8` entries, reversed and cut to the
first two; an empty filter result returns Python `False` and an exception
from the final page scan propagates. -/
def loop_find_m3u8_url (hostnameNetloc : Str) (lesson : LessonMeta) (page : PageScan) :
    ResolveResult :=
  let m3u8Branch : ResolveResult :=
    match page.m3u8 with
    | none => .raised
    | some found =>
        let av := found.dedup.filter (fun u => strEndsWith u (str "av.m3u8"))
        if av.isEmpty then .noAv
        else .urls (av.reverse.take 2)
  match from_json_mp4 lesson with
  | .ok u => .single u
  | .error _ =>
    let _jsonM3u8 := from_json_m3u8 hostnameNetloc lesson
    match page.mp4 with
    | none => m3u8Branch
    | some found =>
      match brute_force_get_mp4_url found with
      | .ok us => .urls us
      | .error _ => m3u8Branch

/-- C1 counterexample: the page-scan file strategy does NOT sort descending.
On the very input named by the claim the code sorts ascending (the source comment wants
hd before sd, which ascending order delivers), so the top-2 selection is
`[".hd1.mp4", ".hd2.mp4"]`, not `[".sd1.mp4", ".hd2.mp4"]`, and the top-1
selection is the hd1 URL, not the sd1 URL. -/
theorem c1_counterexample :
    brute_force_get_mp4_url
        [str "https://h/a.sd1.mp4", str "https://h/a.hd2.mp4", str "https://h/a.hd1.mp4"]
      = .ok [str "https://h/a.hd1.mp4", str "https://h/a.hd2.mp4"] ∧
    brute_force_get_mp4_url
        [str "https://h/a.sd1.mp4", str "https://h/a.hd2.mp4", str "https://h/a.hd1.mp4"]
      ≠ .ok [str "https://h/a.sd1.mp4", str "https://h/a.hd2.mp4"] ∧
    [str "https://h/a.hd1.mp4", str "https://h/a.hd2.mp4"].take 1
      ≠ [str "https://h/a.sd1.mp4"] := by
  refine ⟨by decide, by decide, by decide⟩

/-- C1 (amended): for every set of direct-file URLs found by regex-scanning
the rendered page, the candidates are sorted ascending lexicographically and
the top 2 are taken: every successful result is nondecreasing in code-point
order, has at most two entries drawn from the found URLs, and on the found
URLs `["https://h/a.sd1.mp4","https://h/a.hd2.mp4","https://h/a.hd1.mp4"]`
the top-2 selection is `["https://h/a.hd1.mp4","https://h/a.hd2.mp4"]` and
the top-1 selection is `["https://h/a.hd1.mp4"]`. -/
theorem c1_page_scan_ascending_top2 (found : List Str) (res : List Str)
    (h : brute_force_get_mp4_url found = .ok res) :
    res.Pairwise (fun a b => lexLe a b = true) ∧
    res.length ≤ 2 ∧
    (∀ u ∈ res, u ∈ found) ∧
    brute_force_get_mp4_url
        [str "https://h/a.sd1.mp4", str "https://h/a.hd2.mp4", str "https://h/a.hd1.mp4"]
      = .ok [str "https://h/a.hd1.mp4", str "https://h/a.hd2.mp4"] ∧
    [str "https://h/a.hd1.mp4", str "https://h/a.hd2.mp4"].take 1
      = [str "https://h/a.hd1.mp4"] := by
  have hres : res = (sortByKey id found.dedup).take 2 := by
    by_cases hemp : found.dedup.isEmpty
    · simp [brute_force_get_mp4_url, hemp] at h
    · simp only [brute_force_get_mp4_url, hemp, Bool.false_eq_true, if_false,
        Except.ok.injEq] at h
      exact h.symm
  subst hres
  refine ⟨?_, ?_, ?_, by decide, by decide⟩
  · exact (pairwise_sortByKey id found.dedup).sublist (List.take_sublist 2 _)
  · simp only [List.length_take]
    exact min_le_left 2 (sortByKey id found.dedup).length
  · intro u hu
    have := (mem_sortByKey id found.dedup u).mp (List.mem_of_mem_take hu)
    exact List.mem_dedup.mp this

/-- Witness for the C1 amended theorem at the concrete input named by the claim. -/
theorem c1_page_scan_ascending_top2_witness :
    ([str "https://h/a.hd1.mp4", str "https://h/a.hd2.mp4"]).Pairwise
        (fun a b => lexLe a b = true) ∧
    ([str "https://h/a.hd1.mp4", str "https://h/a.hd2.mp4"] : List Str).length ≤ 2 ∧
    (∀ u ∈ [str "https://h/a.hd1.mp4", str "https://h/a.hd2.mp4"],
      u ∈ [str "https://h/a.sd1.mp4", str "https://h/a.hd2.mp4", str "https://h/a.hd1.mp4"]) ∧
    brute_force_get_mp4_url
        [str "https://h/a.sd1.mp4", str "https://h/a.hd2.mp4", str "https://h/a.hd1.mp4"]
      = .ok [str "https://h/a.hd1.mp4", str "https://h/a.hd2.mp4"] ∧
    [str "https://h/a.hd1.mp4", str "https://h/a.hd2.mp4"].take 1
      = [str "https://h/a.hd1.mp4"] :=
  c1_page_scan_ascending_top2
    [str "https://h/a.sd1.mp4", str "https://h/a.hd2.mp4", str "https://h/a.hd1.mp4"]
    [str "https://h/a.hd1.mp4", str "https://h/a.hd2.mp4"] (by decide)

/-- C2: evaluation at the failing input.  The lesson metadata carries a
manifest URI on an offload host and the embedded-manifest strategy
(`from_json_m3u8`) succeeds, yielding the host-rewritten URI — yet the
cascade does not stop there: both page-scan strategies still run and the
resolution result is the page-scan manifest URL, not the host-rewritten
metadata URI. -/
theorem c2_manifest_result_discarded :
    from_json_m3u8 (str "echo360.org")
      { hasVideo := true, hasAvailableVideo := true,
        manifests := some [{ scheme := str "https", netloc := str "d123.cloudfront.net",
                             path := str "/p1/s1_av.m3u8" }],
        primaryFiles := none }
      = .ok (some [str "https://content.echo360.org/p1/s1_av.m3u8"]) ∧
    loop_find_m3u8_url (str "echo360.org")
      { hasVideo := true, hasAvailableVideo := true,
        manifests := some [{ scheme := str "https", netloc := str "d123.cloudfront.net",
                             path := str "/p1/s1_av.m3u8" }],
        primaryFiles := none }
      { mp4 := some [], m3u8 := some [str "https://other.host/x/s2_av.m3u8"] }
      = .urls [str "https://other.host/x/s2_av.m3u8"] ∧
    ResolveResult.urls [str "https://other.host/x/s2_av.m3u8"]
      ≠ .urls [str "https://content.echo360.org/p1/s1_av.m3u8"] := by
  refine ⟨by decide, by decide, by decide⟩

/-- C6: when the lecture metadata declares both a direct progressive-file
list and a manifest list, resolution returns the direct-file candidate (the
direct-file strategy runs and succeeds before any manifest strategy is
consulted), and it picks the last entry of the declared file list. -/
theorem c6_direct_file_priority (hostnameNetloc : Str) (lesson : LessonMeta)
    (page : PageScan) (u : Str) (us : List Str) (ms : List Url)
    (hfiles : lesson.primaryFiles = some (u :: us))
    (_hman : lesson.manifests = some ms) :
    loop_find_m3u8_url hostnameNetloc lesson page
      = .single ((u :: us).getLast (by simp)) := by
  simp [loop_find_m3u8_url, from_json_mp4, hfiles]

/-- Witness for C6 at a concrete lecture carrying both kinds of candidates. -/
theorem c6_direct_file_priority_witness :
    loop_find_m3u8_url (str "echo360.org")
      { hasVideo := true, hasAvailableVideo := true,
        manifests := some [{ scheme := str "https", netloc := str "x.amazonaws.com",
                             path := str "/p/s1_av.m3u8" }],
        primaryFiles := some [str "https://s3/a-sd.mp4", str "https://s3/b-hd.mp4"] }
      { mp4 := none, m3u8 := none }
      = .single ([str "https://s3/a-sd.mp4", str "https://s3/b-hd.mp4"].getLast (by simp)) :=
  c6_direct_file_priority (str "echo360.org") _ _ _ _
    [{ scheme := str "https", netloc := str "x.amazonaws.com", path := str "/p/s1_av.m3u8" }]
    rfl rfl

/-- The outcome of one iteration of the page fetch/read inside the retry loops of
`EchoVideo._loop_find_m3u8_url` and `brute_force_get_url`: success with a
value, a render timeout (selenium `TimeoutException`), or a stale read
(`StaleElementReferenceException`). -/
inductive FetchOutcome
  | success (v : Str)
  | timeout
  | stale
deriving DecidableEq

/-- The exception a retry loop re-raises once a counter reaches its bound. -/
inductive RetryErr
  | timeout
  | stale
deriving DecidableEq

/-- videos.py `EchoVideo._loop_find_m3u8_url` (lines 81-115) and
`brute_force_get_url` (lines 639-675): the `while True` retry loop with two
independent counters, `refresh_attempt` for render timeouts and
`stale_attempt` for stale reads, both starting at 1.  A failing iteration
whose own counter has already reached `maxAttempts` re-raises the triggering
exception to the caller; otherwise only the counter of that kind is incremented
and the loop retries.  The loop is driven by the trace of iteration
outcomes; `none` means the trace ended with the loop still running. -/
def retryLoop (maxAttempts : Nat) (refreshAttempt staleAttempt : Nat) :
    List FetchOutcome → Option (Except RetryErr Str)
  | [] => none
  | .success v :: _ => some (.ok v)
  | .timeout :: rest =>
      if refreshAttempt ≥ maxAttempts then some (.error .timeout)
      else retryLoop maxAttempts (refreshAttempt + 1) staleAttempt rest
  | .stale :: rest =>
      if staleAttempt ≥ maxAttempts then some (.error .stale)
      else retryLoop maxAttempts refreshAttempt (staleAttempt + 1) rest

theorem retryLoop_success (m : Nat) (pre : List FetchOutcome) (v : Str)
    (rest : List FetchOutcome) :
    ∀ r s : Nat, (∀ o ∈ pre, o = .timeout ∨ o = .stale) →
    pre.count .timeout + r ≤ m → pre.count .stale + s ≤ m →
    retryLoop m r s (pre ++ .success v :: rest) = some (.ok v) := by
  induction pre with
  | nil => intro r s _ _ _; rfl
  | cons o os ih =>
    intro r s hfail ht hs
    rcases hfail o (List.mem_cons_self o os) with ho | ho
    · subst ho
      rw [List.count_cons_self] at ht
      rw [List.count_cons_of_ne (by decide)] at hs
      have hr : ¬ r ≥ m := by omega
      simp only [List.cons_append, retryLoop, if_neg hr]
      exact ih (r + 1) s (fun o' ho' => hfail o' (List.mem_cons_of_mem _ ho'))
        (by omega) hs
    · subst ho
      rw [List.count_cons_self] at hs
      rw [List.count_cons_of_ne (by decide)] at ht
      have hsm : ¬ s ≥ m := by omega
      simp only [List.cons_append, retryLoop, if_neg hsm]
      exact ih r (s + 1) (fun o' ho' => hfail o' (List.mem_cons_of_mem _ ho'))
        ht (by omega)

theorem retryLoop_timeout_raise (m : Nat) (pre : List FetchOutcome)
    (rest : List FetchOutcome) :
    ∀ r s : Nat, (∀ o ∈ pre, o = .timeout ∨ o = .stale) →
    pre.count .timeout + r = m → pre.count .stale + s ≤ m →
    retryLoop m r s (pre ++ .timeout :: rest) = some (.error .timeout) := by
  induction pre with
  | nil =>
    intro r s _ ht _
    simp only [List.count_nil, Nat.zero_add] at ht
    simp only [List.nil_append, retryLoop]
    rw [if_pos (by omega)]
  | cons o os ih =>
    intro r s hfail ht hs
    rcases hfail o (List.mem_cons_self o os) with ho | ho
    · subst ho
      rw [List.count_cons_self] at ht
      rw [List.count_cons_of_ne (by decide)] at hs
      have hr : ¬ r ≥ m := by omega
      simp only [List.cons_append, retryLoop, if_neg hr]
      exact ih (r + 1) s (fun o' ho' => hfail o' (List.mem_cons_of_mem _ ho'))
        (by omega) hs
    · subst ho
      rw [List.count_cons_self] at hs
      rw [List.count_cons_of_ne (by decide)] at ht
      have hsm : ¬ s ≥ m := by omega
      simp only [List.cons_append, retryLoop, if_neg hsm]
      exact ih r (s + 1) (fun o' ho' => hfail o' (List.mem_cons_of_mem _ ho'))
        ht (by omega)

theorem retryLoop_stale_raise (m : Nat) (pre : List FetchOutcome)
    (rest : List FetchOutcome) :
    ∀ r s : Nat, (∀ o ∈ pre, o = .timeout ∨ o = .stale) →
    pre.count .timeout + r ≤ m → pre.count .stale + s = m →
    retryLoop m r s (pre ++ .stale :: rest) = some (.error .stale) := by
  induction pre with
  | nil =>
    intro r s _ _ hs
    simp only [List.count_nil, Nat.zero_add] at hs
    simp only [List.nil_append, retryLoop]
    rw [if_pos (by omega)]
  | cons o os ih =>
    intro r s hfail ht hs
    rcases hfail o (List.mem_cons_self o os) with ho | ho
    · subst ho
      rw [List.count_cons_self] at ht
      rw [List.count_cons_of_ne (by decide)] at hs
      have hr : ¬ r ≥ m := by omega
      simp only [List.cons_append, retryLoop, if_neg hr]
      exact ih (r + 1) s (fun o' ho' => hfail o' (List.mem_cons_of_mem _ ho'))
        (by omega) hs
    · subst ho
      rw [List.count_cons_self] at hs
      rw [List.count_cons_of_ne (by decide)] at ht
      have hsm : ¬ s ≥ m := by omega
      simp only [List.cons_append, retryLoop, if_neg hsm]
      exact ih r (s + 1) (fun o' ho' => hfail o' (List.mem_cons_of_mem _ ho'))
        ht (by omega)

/-- C7: in the page-fetch retry loop (counters start at 1, bound
`max_attempts = 5`), render-timeout and stale-content failures are counted
independently.  Any interleaving of up to 4 timeouts and up to 4 stales
before a success still returns that success; when the failures of one kind
already number 4, the next failure of that same kind (its counter having
reached the bound) re-raises the triggering exception to the caller. -/
theorem c7_independent_retry_counters (pre : List FetchOutcome) (v : Str)
    (rest rest' : List FetchOutcome)
    (hfail : ∀ o ∈ pre, o = .timeout ∨ o = .stale)
    (ht : pre.count .timeout ≤ 4) (hs : pre.count .stale ≤ 4) :
    retryLoop 5 1 1 (pre ++ .success v :: rest) = some (.ok v) ∧
    (pre.count .timeout = 4 →
      retryLoop 5 1 1 (pre ++ .timeout :: rest') = some (.error .timeout)) ∧
    (pre.count .stale = 4 →
      retryLoop 5 1 1 (pre ++ .stale :: rest') = some (.error .stale)) := by
  refine ⟨?_, ?_, ?_⟩
  · exact retryLoop_success 5 pre v rest 1 1 hfail (by omega) (by omega)
  · intro h4
    exact retryLoop_timeout_raise 5 pre rest' 1 1 hfail (by omega) (by omega)
  · intro h4
    exact retryLoop_stale_raise 5 pre rest' 1 1 hfail (by omega) (by omega)

/-- Witness for C7: an interleaving of 4 timeouts and 4 stales (8 failures
in total, more than the bound of either single counter) still succeeds, and
one further failure of either kind raises the exception of that kind. -/
theorem c7_independent_retry_counters_witness :
    retryLoop 5 1 1
        ([.timeout, .stale, .timeout, .stale, .timeout, .stale, .timeout, .stale]
          ++ .success (str "u") :: []) = some (.ok (str "u")) ∧
    (([.timeout, .stale, .timeout, .stale, .timeout, .stale, .timeout, .stale] :
        List FetchOutcome).count .timeout = 4 →
      retryLoop 5 1 1
        ([.timeout, .stale, .timeout, .stale, .timeout, .stale, .timeout, .stale]
          ++ .timeout :: []) = some (.error .timeout)) ∧
    (([.timeout, .stale, .timeout, .stale, .timeout, .stale, .timeout, .stale] :
        List FetchOutcome).count .stale = 4 →
      retryLoop 5 1 1
        ([.timeout, .stale, .timeout, .stale, .timeout, .stale, .timeout, .stale]
          ++ .stale :: []) = some (.error .stale)) :=
  c7_independent_retry_counters
    [.timeout, .stale, .timeout, .stale, .timeout, .stale, .timeout, .stale]
    (str "u") [] [] (by decide) (by decide) (by decide)

/-- A JSON object whose values are null (`none`) or strings (`some`), as
`_extract_date` reads `groupInfo`.  A missing key models a `KeyError`. -/
abbrev JsonObj := List (Str × Option Str)

/-- Python subscript `obj[key]`: `.error` is the `KeyError` raised when the
key is absent. -/
def jlookup (o : JsonObj) (k : Str) : Except Unit (Option Str) :=
  match o.lookup k with
  | none => .error ()
  | some v => .ok v

/-- The date fields of `video_json["lesson"]` read by `_extract_date`. -/
structure LessonDates where
  /-- outer `none` = the key `startTimeUTC` is absent; `some none` = present
  but null; `some (some s)` = present with string value `s` -/
  startTimeUTC : Option (Option Str)
  /-- reading `video_json["lesson"]["lesson"]["createdAt"]`: `.error` = the
  inner `lesson` object is missing (`KeyError`); `.ok none` = `createdAt`
  absent (the Python function then falls off the end, returning `None`);
  `.ok (some v)` = present with value `v` (null or string) -/
  createdAt : Except Unit (Option (Option Str))

/-- The parts of the lecture JSON that `EchoCloudVideo._extract_date`
(videos.py lines 781-792) reads. -/
structure DateJson where
  /-- set when the item carries a `lessons` key, i.e. is a multi-part lecture -/
  isMultipart : Bool
  groupInfo : JsonObj
  /-- `video_json["lesson"]`; `none` models the key being absent -/
  lesson : Option LessonDates

/-- videos.py `EchoCloudVideo._extract_date` (lines 781-792).  For a
multi-part lecture it returns `groupInfo["createdAt"]` when that is non-null,
then consults the malformed literal key `u\x27updatedAt\x27` (the twelve
source characters u, quote, updatedAt, quote) — not `updatedAt` — raising
`KeyError` when that literal key is absent.  Otherwise it falls through to
`startTimeUTC` and then `lesson.createdAt`, returning `None` (`.ok none`)
when neither yields a value. -/
def extract_date (v : DateJson) : Except Unit (Option Str) :=
  let restPath : Except Unit (Option Str) :=
    match v.lesson with
    | none => .error ()
    | some L =>
      match L.startTimeUTC with
      | some (some s) => .ok (some s)
      | _ =>
        match L.createdAt with
        | .error _ => .error ()
        | .ok none => .ok none
        | .ok (some c) => .ok c
  if v.isMultipart then
    match jlookup v.groupInfo (str "createdAt") with
    | .error _ => .error ()
    | .ok (some s) => .ok (some s)
    | .ok none =>
      match jlookup v.groupInfo (str "u\x27updatedAt\x27") with
      | .error _ => .error ()
      | .ok (some s) => .ok (some s)
      | .ok none => restPath
  else restPath

/-- videos.py `EchoVideo.get_date` (lines 132-139): format the extracted
date as `%Y-%m-%d`; any exception (missing key, null value passed to the
parser, unparsable string) yields the fallback `1970-01-01`.  The library
call `dateutil.parser.parse(x).date().strftime("%Y-%m-%d")` is abstracted as
the argument `parse` (`none` = parse failure). -/
def get_date (parse : Str → Option Str) (v : DateJson) : Str :=
  match extract_date v with
  | .error _ => str "1970-01-01"
  | .ok none => str "1970-01-01"
  | .ok (some s) =>
    match parse s with
    | none => str "1970-01-01"
    | some d => d

/-- C8: the multi-part date-fallback path consults the malformed literal key
`u\x27updatedAt\x27` rather than `updatedAt`: for every multi-part lecture
whose `groupInfo.createdAt` field is null and whose `groupInfo` has no key
spelled exactly like the malformed literal, the lookup raises `KeyError` and
`get_date` returns the fallback `1970-01-01` — for every date parser and
regardless of any valid `updatedAt` entry present in `groupInfo`. -/
theorem c8_malformed_fallback_key (parse : Str → Option Str) (v : DateJson)
    (hmp : v.isMultipart = true)
    (hcreated : jlookup v.groupInfo (str "createdAt") = .ok none)
    (hkey : jlookup v.groupInfo (str "u\x27updatedAt\x27") = .error ()) :
    get_date parse v = str "1970-01-01" := by
  simp [get_date, extract_date, hmp, hcreated, hkey]

/-- Witness for C8: a multi-part lecture whose groupInfo has a null
`createdAt` and a perfectly valid `updatedAt` still gets the fallback date. -/
theorem c8_malformed_fallback_key_witness :
    get_date (fun s => some (s.take 10))
      { isMultipart := true,
        groupInfo := [(str "createdAt", none),
                      (str "updatedAt", some (str "2024-03-05T10:00:00.000Z"))],
        lesson := none }
      = str "1970-01-01" :=
  c8_malformed_fallback_key (fun s => some (s.take 10)) _ rfl (by decide) (by decide)

/-- Snapshot of the file system: which paths currently exist. -/
abbrev FS := Str → Bool

/-- A file appears at path `p`. -/
def fsInsert (p : Str) (fs : FS) : FS := fun q => if q = p then true else fs q

/-- The file at path `p` is removed. -/
def fsErase (p : Str) (fs : FS) : FS := fun q => if q = p then false else fs q

/-- Python `os.path.join(d, f)` for a relative second component. -/
def joinPath (d f : Str) : Str := d ++ str "/" ++ f

/-- Externally observable effects of one `download_single` call. -/
inductive Eff
  | netGet (url : Str)
  | writeFile (path : Str)
  | removeFile (path : Str)
  | muxRun
deriving DecidableEq

/-- Environment of a `download_single` run: network responses and the
behaviour of external collaborators, abstracted as functions.
`strip_illegal_path` (echo360.utils) and `urljoin` (echo360.hls_downloader)
are imported by videos.py from modules outside the analysed sources, so they
stay abstract here; no property proved below depends on their behaviour. -/
structure DlEnv where
  /-- the filename sanitizer `strip_illegal_path` -/
  strip : Str → Str
  /-- does the session GET for this URL succeed (`r.ok`)? -/
  httpOk : Str → Bool
  /-- `NaiveM3U8Parser(lines).parse(); get_video_and_audio()` applied to the
  fetched manifest body of a URL: `none` = parse exception, otherwise the
  optional video and audio variant references -/
  parse : Str → Option (Option Str × Option Str)
  /-- `urljoin(base, relative)` -/
  urljoin : Str → Str → Str
  /-- file extension of the artifacts the HLS downloader produces -/
  hlsExt : Str
  /-- is the ffmpeg executable present (else `FFExecutableNotFoundError`)? -/
  ffmpegAvailable : Bool
  /-- does the ffmpeg run exit with status 0 (else `FFRuntimeError`)? -/
  ffmpegSucceeds : Bool

/-- videos.py `EchoCloudVideo.combine_audio_video` (lines 612-637): first
removes any stale file at the output path, then runs the external mux tool
on the video input and the optional audio input (stream-copy video, ac3
audio).  `FFExecutableNotFoundError` (tool unavailable) and
`FFRuntimeError` (non-zero exit) are caught, logged and turned into a
`False` return; on success the tool has written the output file and the
function returns `True`. -/
def combine_audio_video (env : DlEnv) (fs : FS)
    (_audio_file : Option Str) (_video_file final_file : Str) :
    Bool × FS × List Eff :=
  let fs1 := if fs final_file then fsErase final_file fs else fs
  if env.ffmpegAvailable then
    if env.ffmpegSucceeds then (true, fsInsert final_file fs1, [.muxRun])
    else (false, fs1, [.muxRun])
  else (false, fs1, [])

/-- videos.py `EchoCloudVideo.download_single` (lines 435-576) in the
fetch-and-remux pipeline, i.e. with `download_subtitles` false (the
subtitle-only branch at the top of the function is then skipped entirely).
The filename is sanitized; a `None` URL returns success; when
`<filename>.mp4` already exists in the destination directory the function
returns success immediately; an `.m3u8` URL is fetched and parsed into
video/audio variant references, a missing video reference is a non-fatal
failure, otherwise the audio (when present) and video variants are
downloaded next to the output and muxed — the raw artifacts are removed only
when the mux succeeded, and the function returns success even when the mux
failed (the failure is non-fatal); any other URL is streamed directly to
`<filename>.mp4`. -/
def download_single (env : DlEnv) (fs : FS) (output_dir filename0 : Str)
    (single_url : Option Str) : Bool × FS × List Eff :=
  let filename := env.strip filename0
  let final_file := joinPath output_dir (filename ++ str ".mp4")
  match single_url with
  | none => (true, fs, [])
  | some u =>
    if fs final_file then (true, fs, [])
    else if strEndsWith u (str ".m3u8") then
      if !(env.httpOk u) then (false, fs, [.netGet u])
      else
        match env.parse u with
        | none => (false, fs, [.netGet u])
        | some (none, _) => (false, fs, [.netGet u])
        | some (some m3u8_video, m3u8_audio) =>
          let audio_dl : Option (Str × Str) := m3u8_audio.map (fun a =>
            (env.urljoin u a,
             joinPath output_dir (filename ++ str "_audio." ++ env.hlsExt)))
          let video_url := env.urljoin u m3u8_video
          let video_file := joinPath output_dir (filename ++ str "_video." ++ env.hlsExt)
          let audioEffs : List Eff := match audio_dl with
            | none => []
            | some (aurl, apath) => [.netGet aurl, .writeFile apath]
          let fs1 := match audio_dl with
            | none => fs
            | some (_, apath) => fsInsert apath fs
          let fs2 := fsInsert video_file fs1
          let dlEffs := audioEffs ++ [Eff.netGet video_url, Eff.writeFile video_file]
          match combine_audio_video env fs2 (audio_dl.map Prod.snd) video_file final_file with
          | (true, fs3, muxEffs) =>
            let fs4 := match audio_dl with
              | none => fs3
              | some (_, apath) => fsErase apath fs3
            let fs5 := fsErase video_file fs4
            let rmEffs : List Eff := (match audio_dl with
              | none => []
              | some (_, apath) => [.removeFile apath]) ++ [.removeFile video_file]
            (true, fs5, Eff.netGet u :: dlEffs ++ muxEffs ++ rmEffs)
          | (false, fs3, muxEffs) =>
            (true, fs3, Eff.netGet u :: dlEffs ++ muxEffs)
    else
      (true, fsInsert final_file fs,
        [.netGet u, .writeFile final_file])

theorem combine_audio_video_fail_eq {env : DlEnv} {fs : FS} {a : Option Str}
    {v f : Str} {b : Bool} {fs3 : FS} {effs : List Eff}
    (hfail : env.ffmpegAvailable = false ∨ env.ffmpegSucceeds = false)
    (heq : combine_audio_video env fs a v f = (b, fs3, effs)) :
    b = false ∧ fs3 f = false ∧ ∀ p, p ≠ f → fs3 p = fs p := by
  rcases hfail with h | h
  · by_cases hf : fs f <;>
      · simp only [combine_audio_video, h, hf, if_true, if_false,
          Bool.false_eq_true, Prod.mk.injEq] at heq
        obtain ⟨hb, hfs, _⟩ := heq
        subst hb; subst hfs
        refine ⟨rfl, by simp [fsErase, hf], fun p hp => by simp [fsErase, hp]⟩
  · by_cases ha : env.ffmpegAvailable <;> by_cases hf : fs f <;>
      · simp only [combine_audio_video, h, ha, hf, if_true, if_false,
          Bool.false_eq_true, Prod.mk.injEq] at heq
        obtain ⟨hb, hfs, _⟩ := heq
        subst hb; subst hfs
        refine ⟨rfl, by simp [fsErase, hf], fun p hp => by simp [fsErase, hp]⟩

/-- C3: when the final artifact `<filename>.mp4` already exists in the
destination directory, `download_single` returns success immediately with an
empty effect list — zero network transfers, zero mux invocations — and the
file system is returned unchanged; hence a second run of the fetch-and-remux
pipeline on an unchanged lecture is a no-op. -/
theorem c3_idempotent_skip (env : DlEnv) (fs : FS) (output_dir filename : Str)
    (u : Str)
    (hexists : fs (joinPath output_dir (env.strip filename ++ str ".mp4")) = true) :
    download_single env fs output_dir filename (some u) = (true, fs, []) := by
  simp [download_single, hexists]

/-- Witness for C3: with `out/lecture.mp4` on disk, the call returns success,
the unchanged file system and no effects. -/
theorem c3_idempotent_skip_witness :
    download_single
      { strip := id, httpOk := fun _ => true, parse := fun _ => none,
        urljoin := fun a b => a ++ b, hlsExt := str "ts",
        ffmpegAvailable := true, ffmpegSucceeds := true }
      (fun q => q == joinPath (str "out") (str "lecture.mp4"))
      (str "out") (str "lecture") (some (str "https://h/x.m3u8"))
      = (true, (fun q => q == joinPath (str "out") (str "lecture.mp4")), []) :=
  c3_idempotent_skip _ _ _ _ _ (by decide)

/-- C4: when the external mux tool is unavailable
(`env.ffmpegAvailable = false`) or exits with a failure status
(`env.ffmpegSucceeds = false`), `combine_audio_video` returns `False`, no
file exists afterwards at the output path (the combined output is neither
created nor overwritten; a stale file there is in fact removed before the
attempted run), and every other path — in particular the raw video/audio
artifacts — is untouched.  Consequently, inside `download_single` a failed
mux is non-fatal: the call still returns success, the freshly downloaded raw
video artifact is left on disk, and no combined output exists at the target
path. -/
theorem c4_mux_failure_nonfatal (env : DlEnv) (fs fs0 : FS)
    (a : Option Str) (v f : Str)
    (output_dir fn u mv : Str) (ma : Option Str)
    (hfail : env.ffmpegAvailable = false ∨ env.ffmpegSucceeds = false)
    (hne : fs0 (joinPath output_dir (env.strip fn ++ str ".mp4")) = false)
    (hm3u8 : strEndsWith u (str ".m3u8") = true)
    (hok : env.httpOk u = true)
    (hparse : env.parse u = some (some mv, ma))
    (hvne : joinPath output_dir (env.strip fn ++ str "_video." ++ env.hlsExt)
            ≠ joinPath output_dir (env.strip fn ++ str ".mp4")) :
    (combine_audio_video env fs a v f).1 = false ∧
    (combine_audio_video env fs a v f).2.1 f = false ∧
    (∀ p, p ≠ f → (combine_audio_video env fs a v f).2.1 p = fs p) ∧
    (download_single env fs0 output_dir fn (some u)).1 = true ∧
    (download_single env fs0 output_dir fn (some u)).2.1
        (joinPath output_dir (env.strip fn ++ str "_video." ++ env.hlsExt)) = true ∧
    (download_single env fs0 output_dir fn (some u)).2.1
        (joinPath output_dir (env.strip fn ++ str ".mp4")) = false := by
  have hcomb : ∀ p1 : Bool × FS × List Eff, p1 = combine_audio_video env fs a v f →
      p1.1 = false ∧ p1.2.1 f = false ∧ ∀ p, p ≠ f → p1.2.1 p = fs p := by
    rintro ⟨b, fs3, effs⟩ hp
    exact combine_audio_video_fail_eq hfail hp.symm
  obtain ⟨h1, h2, h3⟩ := hcomb _ rfl
  refine ⟨h1, h2, h3, ?_⟩
  have hdl : ∃ fs3 effs,
      download_single env fs0 output_dir fn (some u) = (true, fs3, effs) ∧
      fs3 (joinPath output_dir (env.strip fn ++ str "_video." ++ env.hlsExt)) = true ∧
      fs3 (joinPath output_dir (env.strip fn ++ str ".mp4")) = false := by
    simp only [download_single, hne, hm3u8, hok, hparse, Bool.not_true,
      Bool.false_eq_true, if_false, if_true]
    split
    · rename_i fs3 effs heq
      have := (combine_audio_video_fail_eq hfail heq).1
      simp at this
    · rename_i fs3 effs heq
      obtain ⟨_, hff, hother⟩ := combine_audio_video_fail_eq hfail heq
      refine ⟨fs3, _, rfl, ?_, hff⟩
      rw [hother _ hvne]
      simp [fsInsert]
  obtain ⟨fs3, effs, heq, hv, hf⟩ := hdl
  rw [heq]
  exact ⟨rfl, hv, hf⟩

/-- Environment of the C4 witness: ffmpeg is not installed, the page URL
serves a manifest that parses to a video-only variant. -/
def sampleNoMuxEnv : DlEnv :=
  { strip := id, httpOk := fun _ => true,
    parse := fun _ => some (some (str "v.m3u8"), none),
    urljoin := fun a b => a ++ b, hlsExt := str "ts",
    ffmpegAvailable := false, ffmpegSucceeds := true }

/-- Witness for C4 on an empty file system with ffmpeg unavailable. -/
theorem c4_mux_failure_nonfatal_witness :
    (combine_audio_video sampleNoMuxEnv (fun _ => false) none (str "v") (str "f")).1
        = false ∧
    (combine_audio_video sampleNoMuxEnv (fun _ => false) none (str "v") (str "f")).2.1
        (str "f") = false ∧
    (∀ p, p ≠ str "f" →
      (combine_audio_video sampleNoMuxEnv (fun _ => false) none (str "v") (str "f")).2.1 p
        = (fun _ => false : FS) p) ∧
    (download_single sampleNoMuxEnv (fun _ => false) (str "out") (str "lec")
        (some (str "https://h/x.m3u8"))).1 = true ∧
    (download_single sampleNoMuxEnv (fun _ => false) (str "out") (str "lec")
        (some (str "https://h/x.m3u8"))).2.1
        (joinPath (str "out") (sampleNoMuxEnv.strip (str "lec") ++ str "_video."
          ++ sampleNoMuxEnv.hlsExt)) = true ∧
    (download_single sampleNoMuxEnv (fun _ => false) (str "out") (str "lec")
        (some (str "https://h/x.m3u8"))).2.1
        (joinPath (str "out") (sampleNoMuxEnv.strip (str "lec") ++ str ".mp4")) = false :=
  c4_mux_failure_nonfatal sampleNoMuxEnv (fun _ => false) (fun _ => false)
    none (str "v") (str "f") (str "out") (str "lec") (str "https://h/x.m3u8")
    (str "v.m3u8") none (Or.inl rfl) rfl (by decide) rfl rfl (by decide)

/-- videos.py `EchoCloudVideo.download` (lines 383-426), the per-candidate
loop over the resolved URLs, with the running `enumerate` counter:
each candidate is paired with the filename suffixed by `str(counter + 1)`
when the alternative-feeds flag is on, and with the bare filename when it
is off. -/
def downloadJobsFrom (alternative_feeds : Bool) (filename : Str) (counter : Nat) :
    List Str → List (Str × Str)
  | [] => []
  | u :: us =>
      (u, if alternative_feeds then filename ++ Nat.toDigits 10 (counter + 1)
          else filename)
        :: downloadJobsFrom alternative_feeds filename (counter + 1) us

/-- videos.py `EchoCloudVideo.download` (lines 383-426): when the
alternative-feeds flag is off the candidate list is first cut to its first
element (`urls[:1]`); every remaining candidate is then dispatched to
`download_single` in order.  The result is the sequence of
`(url, filename)` pairs passed on. -/
def downloadJobs (alternative_feeds : Bool) (filename : Str) (urls : List Str) :
    List (Str × Str) :=
  downloadJobsFrom alternative_feeds filename 0
    (if alternative_feeds then urls else urls.take 1)

/-- C5: with the alternative-feeds flag off, exactly the first candidate is
downloaded and its output uses the unsuffixed filename even when two (or
more) candidates were found; with the flag on, the candidates (at most two
are ever produced by resolution) are downloaded in order with the filename
suffixed by "1" and "2" respectively. -/
theorem c5_alternative_feeds_selection (filename u1 u2 : Str) (rest : List Str) :
    downloadJobs false filename (u1 :: u2 :: rest) = [(u1, filename)] ∧
    downloadJobs false filename [u1] = [(u1, filename)] ∧
    downloadJobs true filename [u1] = [(u1, filename ++ str "1")] ∧
    downloadJobs true filename [u1, u2]
      = [(u1, filename ++ str "1"), (u2, filename ++ str "2")] := by
  have h1 : Nat.toDigits 10 1 = str "1" := by decide
  have h2 : Nat.toDigits 10 2 = str "2" := by decide
  refine ⟨?_, ?_, ?_, ?_⟩ <;>
    simp [downloadJobs, downloadJobsFrom, h1, h2]

/-- Python falsiness of an optional string (`None` and `""` are falsy). -/
def pyFalsy : Option Str → Bool
  | none => true
  | some s => s.isEmpty

/-- The fields of one syllabus lesson item that the transcript pass in
`EchoCloudCourse.get_videos` (course.py lines 243-317) reads. -/
structure LectureItem where
  /-- id of the first media with `mediaType == "Video"`, if any -/
  mediaId : Option Str
  /-- sanitized lesson name -/
  name : Str
  lessonId : Str
  /-- outer `none` = key `startTimeUTC` absent; `some none` = present but null -/
  startTimeUTC : Option (Option Str)
  /-- `createdAt` in the inner lesson object; `none` = absent -/
  createdAt : Option Str

/-- course.py lines 256-264: the lecture date — the first 10 characters of
`startTimeUTC` when present and non-null, else (when that produced a falsy
value) the first 10 characters of `createdAt` when present, else the
fallback `1970-01-01`. -/
def lectureDate (it : LectureItem) : Str :=
  let d1 : Option Str := match it.startTimeUTC with
    | some (some s) => some (s.take 10)
    | _ => none
  let d2 : Option Str :=
    if pyFalsy d1 then
      match it.createdAt with
      | some s => some (s.take 10)
      | none => d1
    else d1
  if pyFalsy d2 then str "1970-01-01" else d2.getD (str "1970-01-01")

/-- Traversal state of the transcript pass of `EchoCloudCourse.get_videos`:
the dates already handled (`_processed_lecture_dates`), the
`_processed_lectures` counter, the files written and the network requests
issued so far during the traversal, plus — for stating the dedup property —
the dates at which a transcript fetch was actually issued. -/
structure TState where
  processedDates : List Str
  processedCount : Nat
  written : List Str
  requests : List Str
  fetchDates : List Str
deriving DecidableEq

/-- Fixed surroundings of one `get_videos` traversal. -/
structure CourseEnv where
  hostname : Str
  /-- `default_out_path/<course name>` -/
  courseDir : Str
  /-- files already on disk before the traversal -/
  fs0 : Str → Bool
  /-- does the transcript GET return status 200 for this URL? -/
  http200 : Str → Bool

/-- course.py lines 243-317, the transcript processing of one lesson item:
without a video media id nothing happens beyond counting the lecture as
processed; a lecture whose date was already handled is counted and skipped;
otherwise the date is recorded, and unless the clean transcript file already
exists the transcript URL is fetched and — on a 200 response — the dirty
`.vtt` and clean `.txt` files are written.  The lecture is counted as
processed in every branch. -/
def processLecture (env : CourseEnv) (st : TState) (it : LectureItem) : TState :=
  match it.mediaId with
  | none => { st with processedCount := st.processedCount + 1 }
  | some mediaId =>
    let d := lectureDate it
    if d ∈ st.processedDates then
      { st with processedCount := st.processedCount + 1 }
    else
      let st1 := { st with processedDates := d :: st.processedDates }
      let filename := d ++ str "_" ++ it.name
      let dirtyPath :=
        joinPath (joinPath env.courseDir (str "dirty")) (filename ++ str ".vtt")
      let cleanPath :=
        joinPath (joinPath env.courseDir (str "clean")) (filename ++ str ".txt")
      if env.fs0 cleanPath || cleanPath ∈ st1.written then
        { st1 with processedCount := st1.processedCount + 1 }
      else
        let vttUrl := env.hostname ++ str "/api/ui/echoplayer/lessons/"
          ++ it.lessonId ++ str "/medias/" ++ mediaId
          ++ str "/transcript-file?format=vtt"
        let st2 := { st1 with requests := vttUrl :: st1.requests,
                              fetchDates := d :: st1.fetchDates }
        if env.http200 vttUrl then
          { st2 with written := cleanPath :: dirtyPath :: st2.written,
                     processedCount := st2.processedCount + 1 }
        else
          { st2 with processedCount := st2.processedCount + 1 }

/-- The transcript pass folded over the lesson items in traversal order. -/
def processLectures (env : CourseEnv) (st : TState) : List LectureItem → TState
  | [] => st
  | it :: its => processLectures env (processLecture env st it) its

/-- Invariant of the transcript pass: fetches happened at pairwise distinct
dates, all of which are recorded as processed. -/
def fetchInv (st : TState) : Prop :=
  st.fetchDates.Nodup ∧ ∀ d ∈ st.fetchDates, d ∈ st.processedDates

theorem processLecture_inv (env : CourseEnv) (st : TState) (it : LectureItem)
    (h : fetchInv st) : fetchInv (processLecture env st it) := by
  obtain ⟨hnd, hsub⟩ := h
  unfold processLecture
  match hm : it.mediaId with
  | none => exact ⟨hnd, hsub⟩
  | some mediaId =>
    by_cases hdup : lectureDate it ∈ st.processedDates
    · simp only [if_pos hdup]
      exact ⟨hnd, hsub⟩
    · simp only [if_neg hdup]
      by_cases hclean : (env.fs0 (joinPath (joinPath env.courseDir (str "clean"))
          (lectureDate it ++ str "_" ++ it.name ++ str ".txt"))
          || (joinPath (joinPath env.courseDir (str "clean"))
            (lectureDate it ++ str "_" ++ it.name ++ str ".txt")) ∈ st.written) = true
      · simp only [hclean, if_true]
        exact ⟨hnd, fun d hd => List.mem_cons_of_mem _ (hsub d hd)⟩
      · simp only [hclean, if_false]
        have hnotfetched : lectureDate it ∉ st.fetchDates :=
          fun hmem => hdup (hsub _ hmem)
        by_cases hhttp : env.http200 (env.hostname ++ str "/api/ui/echoplayer/lessons/"
            ++ it.lessonId ++ str "/medias/" ++ mediaId
            ++ str "/transcript-file?format=vtt") = true
        · simp only [hhttp, if_true]
          refine ⟨List.nodup_cons.mpr ⟨hnotfetched, hnd⟩, ?_⟩
          intro d hd
          rcases List.mem_cons.mp hd with hde | hdm
          · subst hde; exact List.mem_cons_self _ _
          · exact List.mem_cons_of_mem _ (hsub d hdm)
        · simp only [hhttp, if_false]
          refine ⟨List.nodup_cons.mpr ⟨hnotfetched, hnd⟩, ?_⟩
          intro d hd
          rcases List.mem_cons.mp hd with hde | hdm
          · subst hde; exact List.mem_cons_self _ _
          · exact List.mem_cons_of_mem _ (hsub d hdm)

theorem processLectures_inv (env : CourseEnv) (st : TState)
    (items : List LectureItem) (h : fetchInv st) :
    fetchInv (processLectures env st items) := by
  induction items generalizing st with
  | nil => exact h
  | cons it its ih => exact ih _ (processLecture_inv env st it h)

/-- C9: within one `get_videos` traversal, at most one lecture per distinct
date has its transcript fetched (all fetch dates are pairwise distinct when
starting from the fresh per-course state), and every lecture whose extracted
date is already among the processed dates is counted as processed but
skipped: no network request, no file written, no other state change. -/
theorem c9_transcript_date_dedup (env : CourseEnv) (items : List LectureItem)
    (st : TState) (it : LectureItem)
    (hdup : lectureDate it ∈ st.processedDates) :
    (processLectures env ⟨[], 0, [], [], []⟩ items).fetchDates.Nodup ∧
    processLecture env st it = { st with processedCount := st.processedCount + 1 } := by
  constructor
  · exact (processLectures_inv env ⟨[], 0, [], [], []⟩ items
      ⟨List.nodup_nil, by intro d hd; cases hd⟩).1
  · unfold processLecture
    match hm : it.mediaId with
    | none => rfl
    | some mediaId => simp only [if_pos hdup]

/-- Witness for C9: two lectures on the same date — the second is skipped
with only the counter advancing, and the fetch dates of a fresh traversal
are distinct. -/
theorem c9_transcript_date_dedup_witness :
    (processLectures
        { hostname := str "https://echo360.org",
          courseDir := str "default_out_path/C1",
          fs0 := fun _ => false, http200 := fun _ => true }
        ⟨[], 0, [], [], []⟩
        [{ mediaId := some (str "m1"), name := str "lecA", lessonId := str "id1",
           startTimeUTC := some (some (str "2024-03-05T10:00:00.000Z")),
           createdAt := none },
         { mediaId := some (str "m2"), name := str "lecB", lessonId := str "id2",
           startTimeUTC := some (some (str "2024-03-05T12:00:00.000Z")),
           createdAt := none }]).fetchDates.Nodup ∧
    processLecture
        { hostname := str "https://echo360.org",
          courseDir := str "default_out_path/C1",
          fs0 := fun _ => false, http200 := fun _ => true }
        ⟨[str "2024-03-05"], 1, [], [], [str "2024-03-05"]⟩
        { mediaId := some (str "m2"), name := str "lecB", lessonId := str "id2",
          startTimeUTC := some (some (str "2024-03-05T12:00:00.000Z")),
          createdAt := none }
      = ⟨[str "2024-03-05"], 2, [], [], [str "2024-03-05"]⟩ :=
  c9_transcript_date_dedup _ _ _ _ (by decide)

/-- A constructed video object as the collection constructors see it: the
date attribute (a `%Y-%m-%d` string produced by `get_date`, on which
code-point lexicographic order coincides with chronological order) is the
sort key. -/
structure VideoObj where
  date : Str
  title : Str
deriving DecidableEq

/-- videos.py `EchoVideos.__init__` (lines 34-46): builds one video object
per JSON entry in input order and finally sorts the collection in place by
the `date` attribute (`self._videos.sort(key=operator.attrgetter("date"))`). -/
def echoVideosInit (vs : List VideoObj) : List VideoObj :=
  sortByKey VideoObj.date vs

/-- One syllabus item as `EchoCloudVideos.__init__` (course.py lines
552-613) sees it: its `type` string, and the video object its construction
produces — `none` models the `EchoCloudVideo` constructor raising, which
with `skip_video_on_error` set silently skips the item. -/
structure SyllabusItem where
  type : Str
  construct : Option VideoObj

/-- Python substring containment `needle in s`. -/
def containsSub (needle : Str) : Str → Bool
  | [] => isPrefixCh needle []
  | c :: rest => isPrefixCh needle (c :: rest) || containsSub needle rest

/-- course.py `EchoCloudVideos.__init__` (lines 552-613): keeps the items
whose lowercased `type` contains `lesson`, constructs a video object for
each (skipping construction failures), and finally sorts the collection by
the `date` attribute. -/
def echoCloudVideosInit (items : List SyllabusItem) : List VideoObj :=
  let videos_json := items.filter
    (fun it => containsSub (str "lesson") (it.type.map Char.toLower))
  let videos := videos_json.filterMap (fun it => it.construct)
  sortByKey VideoObj.date videos

/-- C10: after construction, the exposed videos list is sorted by
nondecreasing date string (code-point lexicographic order on the `%Y-%m-%d`
dates, which coincides with chronological order), so every consumer iterates
lectures oldest-first — for both the legacy and the cloud collection
constructors. -/
theorem c10_videos_sorted_by_date (vs : List VideoObj) (items : List SyllabusItem) :
    (echoVideosInit vs).Pairwise (fun a b => lexLe a.date b.date = true) ∧
    (echoCloudVideosInit items).Pairwise (fun a b => lexLe a.date b.date = true) :=
  ⟨pairwise_sortByKey VideoObj.date vs, pairwise_sortByKey VideoObj.date _⟩
